import Mathlib

/-!
Formal model of the contract invocation router of the
awjh-ibm/fabric-go-developer-api repository: name resolution across
registered contracts, argument conversion, the transaction lifecycle
(before/main/after/unknown hooks), response framing, signature
validation, and the system contract.

The router, converter, registry and validator sources are not part of
the available source tree (only the system contract, the sample
chaincodes, the integration expectations, the README and the tutorials
are), so those components are modelled from the specification and from
the repository documents, as marked on each definition.
-/

namespace FabricContractAPI

/-- Modelled from the spec: the closed set of convertible parameter
types of the type converter (spec 4.1, README "Writing contract
functions"): string, bool, signed and unsigned integers of a bit
width, single and double precision floating point, and arbitrarily
nested fixed-length arrays and slices of them. -/
inductive ParamType where
  | str : ParamType
  | boolean : ParamType
  | int (width : Nat) : ParamType
  | uint (width : Nat) : ParamType
  | float32 : ParamType
  | float64 : ParamType
  | array (len : Nat) (elem : ParamType) : ParamType
  | slice (elem : ParamType) : ParamType
deriving DecidableEq

/-- Modelled from the spec: a typed in-process value produced by the
type converter, mirroring the Go runtime values handlers receive.
A floating-point value is carried as the fixed-notation decimal
numeral the wire exchanges: a sign, an integer part, and the list of
fraction digits. The spec describes floating point only through its
literal grammar (parsed as a decimal literal, formatted via the host
default formatting); the host binary representation and its rounding
sit behind that grammar and are outside the model. -/
inductive Value where
  | vStr (s : String) : Value
  | vBool (b : Bool) : Value
  | vInt (i : Int) : Value
  | vUint (n : Nat) : Value
  | vFloat (neg : Bool) (ip : Nat) (frac : List Nat) : Value
  | vArr (elems : List Value) : Value

/-- Numeric value of a decimal digit character. -/
def digitVal (c : Char) : Nat := c.toNat - '0'.toNat

/-- Base-10 value of a list of digit characters, most significant first. -/
def decimalVal (l : List Char) : Nat := l.foldl (fun a c => 10 * a + digitVal c) 0

/-- Worker for the decimal rendering: structurally recursive on a fuel
bound that dominates the digit count. -/
def natCharsGo : Nat → Nat → List Char
  | 0, _ => []
  | fuel + 1, n =>
    if n < 10 then [Nat.digitChar n]
    else natCharsGo fuel (n / 10) ++ [Nat.digitChar (n % 10)]

/-- Decimal rendering of a natural number, as the host fmt/strconv do. -/
def natChars (n : Nat) : List Char := natCharsGo (n + 1) n

/-- Decimal rendering of an integer, with a leading minus sign when negative. -/
def intChars (i : Int) : List Char :=
  if i < 0 then '-' :: natChars i.natAbs else natChars i.toNat

/-- Greedy parse of a maximal nonempty run of decimal digits. -/
def parseDigits (l : List Char) : Option (Nat × List Char) :=
  let ds := l.takeWhile Char.isDigit
  if ds = [] then none else some (decimalVal ds, l.dropWhile Char.isDigit)

/-- Modelled from the spec: smallest value of a signed integer of the given width. -/
def intMin (w : Nat) : Int := -(2 ^ (w - 1))

/-- Modelled from the spec: largest value of a signed integer of the given width. -/
def intMax (w : Nat) : Int := 2 ^ (w - 1) - 1

/-- Modelled from the spec: largest value of an unsigned integer of the given width. -/
def uintMax (w : Nat) : Nat := 2 ^ w - 1

/-- Modelled from the spec: base-10 unsigned integer parse in the manner
of strconv.ParseUint, which permits no sign prefix (range checking is
done by the caller against the target width). -/
def parseUintChars (l : List Char) : Option Nat :=
  if l = [] then none
  else if l.all Char.isDigit then some (decimalVal l) else none

/-- Modelled from the spec: base-10 signed integer parse in the manner
of strconv.ParseInt, which permits a single leading sign. -/
def parseIntChars (l : List Char) : Option Int :=
  match l with
  | [] => none
  | c :: rest =>
    if c = '-' then (parseUintChars rest).map (fun n => -(n : Int))
    else if c = '+' then (parseUintChars rest).map (fun n => (n : Int))
    else (parseUintChars l).map (fun n => (n : Int))

/-- Modelled from the spec: boolean conversion via strconv.ParseBool
(README: "Bool uses strconv.ParseBool"), which accepts exactly the
twelve literals of the Go standard library. -/
def strconvParseBool (s : String) : Option Bool :=
  if s ∈ ["1", "t", "T", "TRUE", "true", "True"] then some true
  else if s ∈ ["0", "f", "F", "FALSE", "false", "False"] then some false
  else none

/-- ASCII lowercase of one character. -/
def lowerChar (c : Char) : Char :=
  if 'A' ≤ c ∧ c ≤ 'Z' then Char.ofNat (c.toNat + 32) else c

/-- ASCII lowercase of a string. -/
def lowerStr (s : String) : String := String.mk (s.data.map lowerChar)

/-- The case-insensitive true/false rule as the claim words it, for
comparison with the modelled strconv.ParseBool behaviour. -/
def caseInsensitiveBoolRule (s : String) : Option Bool :=
  if lowerStr s = "true" then some true
  else if lowerStr s = "false" then some false
  else none

/-- Hexadecimal value of one character, as a JSON decoder reads the
four digits of a backslash-u escape. -/
def hexVal (c : Char) : Option Nat :=
  if c.isDigit then some (digitVal c)
  else if 'a' ≤ c ∧ c ≤ 'f' then some (c.toNat - 'a'.toNat + 10)
  else if 'A' ≤ c ∧ c ≤ 'F' then some (c.toNat - 'A'.toNat + 10)
  else none

/-- The four lowercase hexadecimal digits of a code point below
0x10000, as a backslash-u escape carries them. -/
def hex4 (n : Nat) : List Char :=
  [Nat.digitChar (n / 4096 % 16), Nat.digitChar (n / 256 % 16),
   Nat.digitChar (n / 16 % 16), Nat.digitChar (n % 16)]

/-- Modelled from the spec: the JSON escaping of one string character
as the host encoder performs it (encoding/json appendString): quote
and backslash get a backslash escape, newline, carriage return and
tab their two-character escapes, the remaining control characters,
the HTML-sensitive characters and the line and paragraph separators
a backslash-u escape, and every other character passes verbatim. -/
def escapeChar (c : Char) : List Char :=
  if c = '"' then ['\\', '"']
  else if c = '\\' then ['\\', '\\']
  else if c = '\n' then ['\\', 'n']
  else if c = '\r' then ['\\', 'r']
  else if c = '\t' then ['\\', 't']
  else if c.toNat < 32 ∨ c = '<' ∨ c = '>' ∨ c = '&' ∨
      c.toNat = 8232 ∨ c.toNat = 8233 then
    '\\' :: 'u' :: hex4 c.toNat
  else [c]

/-- The JSON escaping of a whole string body. -/
def escapeChars : List Char → List Char
  | [] => []
  | c :: l => escapeChar c ++ escapeChars l

/-- The character a two-character JSON escape denotes, per the
standard escape table the host decoder implements. -/
def unescapeChar (e : Char) : Option Char :=
  if e = '"' then some '"'
  else if e = '\\' then some '\\'
  else if e = '/' then some '/'
  else if e = 'b' then some (Char.ofNat 8)
  else if e = 'f' then some (Char.ofNat 12)
  else if e = 'n' then some '\n'
  else if e = 'r' then some '\r'
  else if e = 't' then some '\t'
  else none

mutual

/-- Modelled from the spec: the structured-text (JSON) encoding the
output converter produces for composite values, exactly as the host
encoder renders the supported leaves: strings quoted with their
characters escaped per the host escape set, numbers in base 10,
floating point in fixed notation with sign, integer part and
fraction digits, booleans as true/false, arrays bracketed and comma
separated, no added whitespace. -/
def renderValue : Value → List Char
  | .vStr s => '"' :: (escapeChars s.data ++ ['"'])
  | .vBool b => if b then ['t', 'r', 'u', 'e'] else ['f', 'a', 'l', 's', 'e']
  | .vInt i => intChars i
  | .vUint n => natChars n
  | .vFloat neg ip frac =>
    (if neg then ['-'] else []) ++ natChars ip ++
      (if frac.isEmpty then [] else '.' :: frac.map Nat.digitChar)
  | .vArr vs => '[' :: (renderElems vs ++ [']'])

def renderElems : List Value → List Char
  | [] => []
  | [v] => renderValue v
  | v :: w :: vs => renderValue v ++ ',' :: renderElems (w :: vs)

end

/-- Modelled from the spec: parse the body of a JSON string literal up
to its unescaped closing quote, decoding the two-character and
backslash-u escapes of the standard escape grammar the host decoder
implements. -/
def parseStringBody : List Char → Option (List Char × List Char)
  | [] => none
  | c :: r =>
    if c = '"' then some ([], r)
    else if c = '\\' then
      match r with
      | [] => none
      | e :: r2 =>
        if e = 'u' then
          match r2 with
          | h1 :: h2 :: h3 :: h4 :: r3 =>
            match hexVal h1, hexVal h2, hexVal h3, hexVal h4 with
            | some a, some b, some c2, some d =>
              match parseStringBody r3 with
              | some (body, rest) =>
                some (Char.ofNat (((a * 16 + b) * 16 + c2) * 16 + d) :: body,
                  rest)
              | none => none
            | _, _, _, _ => none
          | _ => none
        else
          match unescapeChar e with
          | some ec =>
            match parseStringBody r2 with
            | some (body, rest) => some (ec :: body, rest)
            | none => none
          | none => none
    else
      match parseStringBody r with
      | some (body, rest) => some (c :: body, rest)
      | none => none

/-- Parse the magnitude of a fixed-notation decimal float: a nonempty
integer digit run, optionally followed by a point and a nonempty
fraction digit run. -/
def parseFloatMag (l : List Char) : Option (Nat × List Nat × List Char) :=
  match parseDigits l with
  | none => none
  | some (ip, r) =>
    match r with
    | [] => some (ip, [], [])
    | c :: r2 =>
      if c = '.' then
        let ds := r2.takeWhile Char.isDigit
        if ds = [] then none
        else some (ip, ds.map digitVal, r2.dropWhile Char.isDigit)
      else some (ip, [], c :: r2)

/-- Modelled from the spec: parse a floating-point JSON number of the
fixed-notation decimal grammar, with an optional leading minus
sign. -/
def parseJsonFloat (l : List Char) : Option (Value × List Char) :=
  match l with
  | [] => none
  | c :: r =>
    if c = '-' then
      match parseFloatMag r with
      | some (ip, frac, r2) => some (.vFloat true ip frac, r2)
      | none => none
    else
      match parseFloatMag (c :: r) with
      | some (ip, frac, r2) => some (.vFloat false ip frac, r2)
      | none => none

/-- Parse a nonempty comma-separated run of elements closed by a right
bracket, with an explicit fuel bound for termination. -/
def parseElems (pElem : List Char → Option (Value × List Char)) :
    Nat → List Char → Option (List Value × List Char)
  | 0, _ => none
  | fuel + 1, l =>
    match pElem l with
    | none => none
    | some (v, rest) =>
      match rest with
      | [] => none
      | c :: r =>
        if c = ']' then some ([v], r)
        else if c = ',' then
          match parseElems pElem fuel r with
          | none => none
          | some (vs, r2) => some (v :: vs, r2)
        else none

/-- Modelled from the spec: the input converter for composite
parameters interprets the raw text as the JSON encoding of the target
shape, converting each leaf per its scalar rule and enforcing exact
length match for fixed-length array types (spec 4.1). -/
def parseJsonValue : ParamType → List Char → Option (Value × List Char)
  | .str, l =>
    match l with
    | [] => none
    | c :: r =>
      if c = '"' then
        match parseStringBody r with
        | some (body, rest) => some (.vStr (String.mk body), rest)
        | none => none
      else none
  | .boolean, l =>
    if l.take 4 = ['t', 'r', 'u', 'e'] then some (.vBool true, l.drop 4)
    else if l.take 5 = ['f', 'a', 'l', 's', 'e'] then some (.vBool false, l.drop 5)
    else none
  | .int w, l =>
    match l with
    | [] => none
    | c :: r =>
      if c = '-' then
        match parseDigits r with
        | some (n, r2) =>
          if intMin w ≤ -(n : Int) ∧ -(n : Int) ≤ intMax w
          then some (.vInt (-(n : Int)), r2) else none
        | none => none
      else
        match parseDigits (c :: r) with
        | some (n, r2) =>
          if intMin w ≤ (n : Int) ∧ (n : Int) ≤ intMax w
          then some (.vInt (n : Int), r2) else none
        | none => none
  | .uint w, l =>
    match parseDigits l with
    | some (n, r2) => if n ≤ uintMax w then some (.vUint n, r2) else none
    | none => none
  | .float32, l => parseJsonFloat l
  | .float64, l => parseJsonFloat l
  | .array len elem, l =>
    match l with
    | [] => none
    | c :: r =>
      if c = '[' then
        match r with
        | [] => none
        | c2 :: r2 =>
          if c2 = ']' then (if len = 0 then some (.vArr [], r2) else none)
          else
            match parseElems (parseJsonValue elem) r.length r with
            | some (vs, r3) =>
              if vs.length = len then some (.vArr vs, r3) else none
            | none => none
      else none
  | .slice elem, l =>
    match l with
    | [] => none
    | c :: r =>
      if c = '[' then
        match r with
        | [] => none
        | c2 :: r2 =>
          if c2 = ']' then some (.vArr [], r2)
          else
            match parseElems (parseJsonValue elem) r.length r with
            | some (vs, r3) => some (.vArr vs, r3)
            | none => none
      else none

/-- Conformance of a fixed-notation decimal float value: fraction
digits are decimal digits with no trailing zero, as the host shortest
formatting emits them. -/
def floatDigitsOk (frac : List Nat) : Bool :=
  frac.all (fun d => decide (d < 10)) &&
    (frac.isEmpty || !(frac.getLast? == some 0))

/-- Shape conformance of a runtime value to a declared parameter type,
including integer range conformance to the declared bit width. -/
def wellTyped : Value → ParamType → Bool
  | .vStr _, .str => true
  | .vBool _, .boolean => true
  | .vInt i, .int w => decide (intMin w ≤ i ∧ i ≤ intMax w)
  | .vUint n, .uint w => decide (n ≤ uintMax w)
  | .vFloat _ _ frac, .float32 => floatDigitsOk frac
  | .vFloat _ _ frac, .float64 => floatDigitsOk frac
  | .vArr vs, .array len elem =>
    decide (vs.length = len) && vs.all (fun v => wellTyped v elem)
  | .vArr vs, .slice elem => vs.all (fun v => wellTyped v elem)
  | _, _ => false

/-- Array and slice types are the composite members of the closed set. -/
def isCompositeType : ParamType → Bool
  | .array _ _ => true
  | .slice _ => true
  | _ => false

/-- Modelled from the spec: input conversion of one composite raw
argument, requiring the whole raw string to be consumed. -/
def decodeJsonArg (ty : ParamType) (raw : String) : Option Value :=
  match parseJsonValue ty raw.data with
  | some (v, []) => some v
  | _ => none

/-- Modelled from the spec: input conversion of one raw string argument
against its declared parameter type (spec 4.1): strings pass through
unchanged, booleans go through strconv.ParseBool, integers are parsed
base-10 with a width range check, and composites are decoded from
JSON. -/
def convertArg (ty : ParamType) (raw : String) : Option Value :=
  match ty with
  | .str => some (.vStr raw)
  | .boolean => (strconvParseBool raw).map Value.vBool
  | .int w =>
    match parseIntChars raw.data with
    | some i => if intMin w ≤ i ∧ i ≤ intMax w then some (.vInt i) else none
    | none => none
  | .uint w =>
    match parseUintChars raw.data with
    | some n => if n ≤ uintMax w then some (.vUint n) else none
    | none => none
  | .float32 =>
    match parseJsonFloat raw.data with
    | some (v, []) => some v
    | _ => none
  | .float64 =>
    match parseJsonFloat raw.data with
    | some (v, []) => some v
    | _ => none
  | .array len elem => decodeJsonArg (.array len elem) raw
  | .slice elem => decodeJsonArg (.slice elem) raw

/-- Printable name of a parameter type, used in conversion errors. -/
def typeName : ParamType → String
  | .str => "string"
  | .boolean => "bool"
  | .int w => "int" ++ String.mk (natChars w)
  | .uint w => "uint" ++ String.mk (natChars w)
  | .float32 => "float32"
  | .float64 => "float64"
  | .array len elem => "[" ++ String.mk (natChars len) ++ "]" ++ typeName elem
  | .slice elem => "[]" ++ typeName elem

/-- Modelled from the spec: the per-call error taxonomy of the router
(spec 7): unresolved namespace, unresolved function, failed argument
conversion, and domain errors surfaced by hooks and handlers. -/
inductive CallError where
  | contractNotFound (name : String) : CallError
  | functionNotFound (fn : String) (contract : String) : CallError
  | conversionError (position : Nat) (expected : ParamType) : CallError
  | handlerError (msg : String) : CallError

/-- Modelled from the spec: the single human-readable message each
failure surfaces; the not-found wordings are those the integration
expectations record, the conversion wording names the offending
position and expected type as the spec requires. -/
def CallError.message : CallError → String
  | .contractNotFound name => "Contract not found with name " ++ name
  | .functionNotFound fn contract =>
    "Function " ++ fn ++ " not found in contract " ++ contract
  | .conversionError position expected =>
    "Error converting argument " ++ String.mk (natChars position) ++
      " to type " ++ typeName expected
  | .handlerError msg => msg

/-- Modelled from the spec: conversion of the raw arguments against a
parameter type list from a starting position, failing with a
conversion error naming the first offending position; surplus raw
arguments are ignored, since only as many arguments as a function
declares are sent to it (tutorial on before/after functions). -/
def convertArgsFrom (pos : Nat) : List ParamType → List String → Except CallError (List Value)
  | [], _ => .ok []
  | ty :: _, [] => .error (.conversionError pos ty)
  | ty :: tys, raw :: raws =>
    match convertArg ty raw with
    | none => .error (.conversionError pos ty)
    | some v =>
      match convertArgsFrom (pos + 1) tys raws with
      | .error e => .error e
      | .ok vs => .ok (v :: vs)

/-- Modelled from the spec: conversion of all raw arguments a callable
declares, positions counted from zero. -/
def convertArgs (tys : List ParamType) (raws : List String) : Except CallError (List Value) :=
  convertArgsFrom 0 tys raws

/-- Modelled from the spec: the output converter (spec 4.1, README):
string results pass verbatim, composite results are JSON encoded, and
other scalars use the host default formatting. -/
def outputConvert : Value → String
  | .vStr s => s
  | .vBool b => if b then "true" else "false"
  | .vInt i => String.mk (intChars i)
  | .vUint n => String.mk (natChars n)
  | .vFloat neg ip frac => String.mk (renderValue (.vFloat neg ip frac))
  | .vArr vs => String.mk (renderValue (.vArr vs))

/-- Modelled from the spec: the per-invocation Transaction Context,
carrying the raw invocation (function name and arguments, as the stub
GetFunctionAndParameters exposes them), world-state access, and
contract-defined auxiliary data a before hook can set for later hooks
(spec 3, tutorials on custom transaction contexts). -/
structure TxContext where
  functionName : String
  parameters : List String
  worldState : List (String × String)
  callData : String
deriving DecidableEq

/-- Modelled from the spec: the runtime result of one hook or handler
call, by declared return arity: none, a single non-error value, a
single error value, or a value-and-error pair (README return rules). -/
inductive HandlerResult where
  | retNone : HandlerResult
  | retVal (v : Value) : HandlerResult
  | retErr (e : Option String) : HandlerResult
  | retValErr (v : Value) (e : Option String) : HandlerResult

/-- The error a handler result surfaces, if any. -/
def HandlerResult.errMsg : HandlerResult → Option String
  | .retErr e => e
  | .retValErr _ e => e
  | _ => none

/-- The non-error value a handler result carries, handed to the after
hook as its parameter. -/
def HandlerResult.retValue : HandlerResult → Option Value
  | .retVal v => some v
  | .retValErr v _ => some v
  | _ => none

/-- Modelled from the spec: a callable unit (main function, before,
after or unknown hook) as the router sees it after registration: its
declared non-context parameter types and its behaviour on a
transaction context and converted arguments. -/
structure Callable where
  params : List ParamType
  impl : TxContext → List Value → TxContext × HandlerResult

/-- Modelled from the spec: a registered contract: its (non-blank)
registered name, its function descriptors by name, and its optional
before, after and unknown transaction hooks (spec 3). -/
structure Contract where
  name : String
  functions : List (String × Callable)
  beforeTransaction : Option Callable
  afterTransaction : Option Callable
  unknownTransaction : Option Callable

/-- Observable lifecycle events of one invocation, in execution order. -/
inductive Step where
  | stepBefore : Step
  | stepMain : Step
  | stepUnknown : Step
  | stepAfter : Step
deriving DecidableEq

/-- Modelled from the spec: the single success-or-failure outcome a
call surfaces to the host (spec 6). -/
inductive Outcome where
  | success (payload : String) : Outcome
  | failure (message : String) : Outcome
deriving DecidableEq

/-- Modelled from the spec: response framing of a handler result
(README): a non-nil error becomes the failure payload and the success
value is then not converted; otherwise the success value, if any, is
converted by the output converter. -/
def frameResponse : HandlerResult → Outcome
  | .retNone => .success ""
  | .retVal v => .success (outputConvert v)
  | .retErr none => .success ""
  | .retErr (some m) => .failure m
  | .retValErr v none => .success (outputConvert v)
  | .retValErr _ (some m) => .failure m

/-- Modelled from the spec: running one callable: convert as many raw
arguments as it declares against its parameter types, then invoke it
on the shared transaction context. -/
def runCallable (f : Callable) (ctx : TxContext) :
    Except CallError (TxContext × HandlerResult) :=
  match convertArgs f.params ctx.parameters with
  | .error e => .error e
  | .ok vals => .ok (f.impl ctx vals)

/-- Modelled from the spec: descriptor lookup for one call: a matching
function descriptor is the main callable; otherwise the unknown
transaction hook, if defined, is called in its place (tutorial on
handling unknown function requests). -/
def mainCallable (c : Contract) (fn : String) : Option (Callable × Step) :=
  match c.functions.lookup fn with
  | some f => some (f, .stepMain)
  | none =>
    match c.unknownTransaction with
    | some u => some (u, .stepUnknown)
    | none => none

/-- Modelled from the spec: the before stage: a defined before hook
runs first with the shared context; its non-nil error (or a failure
converting its arguments) aborts the call (tutorial: remaining
function calls are not made). -/
def runBeforeStage (c : Contract) (ctx : TxContext) :
    Except (Outcome × List Step) (TxContext × List Step) :=
  match c.beforeTransaction with
  | none => .ok (ctx, [])
  | some b =>
    match runCallable b ctx with
    | .error e => .error (.failure e.message, [])
    | .ok (ctx1, hr) =>
      match hr.errMsg with
      | some msg => .error (.failure msg, [.stepBefore])
      | none => .ok (ctx1, [.stepBefore])

/-- Modelled from the spec: the after stage: a defined after hook runs
once the main callable succeeded, invoked with the shared transaction
context and the main callable's returned non-error value (spec 4.4
step 7; tutorial: the after transaction receives the value returned
by the named function in the call as its only parameter); its non-nil
error replaces the outcome, otherwise the main success outcome stands
(tutorial: the success response from the main function is returned
whether the after function has a success response or not). -/
def runAfterStage (c : Contract) (ctx : TxContext) (mainVal : Option Value)
    (mainOutcome : Outcome) : Outcome × List Step :=
  match c.afterTransaction with
  | none => (mainOutcome, [])
  | some a =>
    match (a.impl ctx mainVal.toList).2.errMsg with
    | some m => (.failure m, [.stepAfter])
    | none => (mainOutcome, [.stepAfter])

/-- Modelled from the spec: the main stage and everything after it:
convert the arguments the main callable declares (a conversion
failure aborts without invoking it), invoke it, stop on its non-nil
error, else frame its result and run the after stage on its returned
value (tutorial: if the main function errors the after function is
not called). -/
def runMainAfter (c : Contract) (m : Callable) (st : Step) (ctx : TxContext) :
    Outcome × List Step :=
  match runCallable m ctx with
  | .error e => (.failure e.message, [])
  | .ok (ctx2, hr) =>
    match hr.errMsg with
    | some msg => (.failure msg, [st])
    | none =>
      let (out, steps) := runAfterStage c ctx2 hr.retValue (frameResponse hr)
      (out, st :: steps)

/-- Modelled from the spec: one resolved invocation end to end on a
contract: find the main callable (function descriptor or unknown
hook; with neither the call fails with FunctionNotFoundError), run
the before stage, then the main and after stages, collecting which
lifecycle steps ran in order (spec 4.4, amended by the tutorial: the
before transaction is called before an unknown transaction too). -/
def invokeResolved (c : Contract) (fn : String) (ctx : TxContext) :
    Outcome × List Step :=
  match mainCallable c fn with
  | none => (.failure (CallError.functionNotFound fn c.name).message, [])
  | some (m, st) =>
    match runBeforeStage c ctx with
    | .error r => r
    | .ok (ctx1, pre) =>
      let (out, steps) := runMainAfter c m st ctx1
      (out, pre ++ steps)

/-- Split a raw character list at the first namespace separator. -/
def splitAtColon : List Char → Option (List Char × List Char)
  | [] => none
  | c :: r =>
    if c = ':' then some ([], r)
    else
      match splitAtColon r with
      | some (ns, fn) => some (c :: ns, fn)
      | none => none

/-- Modelled from the spec and the integration expectations: contract
resolution: a name containing the separator is split into namespace
and function and the namespace looked up (failing with
ContractNotFoundError); a bare name is the function name and resolves
against the first registered contract (the integration expectations
send a bare name with two named contracts registered and observe the
first contract take the call). -/
def resolveContract (cs : List Contract) (raw : String) :
    Except CallError (Contract × String) :=
  match splitAtColon raw.data with
  | some (ns, fn) =>
    let nsStr := String.mk ns
    match cs.find? (fun c => c.name == nsStr) with
    | some c => .ok (c, String.mk fn)
    | none => .error (.contractNotFound nsStr)
  | none =>
    match cs with
    | [] => .error (.contractNotFound "")
    | c :: _ => .ok (c, raw)

/-- The bare-name resolution rule exactly as the claim words it, for
comparison with the modelled resolution: the default (empty-named)
contract if exactly one contract is registered as default, else the
sole registered contract if exactly one is registered overall. -/
def resolveBareSpecRule (cs : List Contract) : Option Contract :=
  match cs.filter (fun c => c.name == "") with
  | [c] => some c
  | _ =>
    match cs with
    | [c] => some c
    | _ => none

/-- Modelled from the spec: the registered name of a contract: the
name set on it, or its struct name when the set name is blank
(tutorial: if GetName returns a blank string the contract API uses
the name of the struct). -/
def resolvedName (setName structName : String) : String :=
  if setName = "" then structName else setName

/-- Modelled from the spec: the host dispatch entry point: resolve the
raw name against the registry, then run the resolved invocation with
a fresh transaction context carrying the raw invocation and the
world state (spec 4.4, 6). -/
def handleRequest (cs : List Contract) (raw : String) (args : List String)
    (state : List (String × String)) : Outcome × List Step :=
  match resolveContract cs raw with
  | .error e => (.failure e.message, [])
  | .ok (c, fn) =>
    invokeResolved c fn
      { functionName := raw, parameters := args, worldState := state, callData := "" }

/-- Modelled from the spec: the Go-level type of one parameter or
return position as the registration-time validator sees it: a
transaction context reference, the error kind, one of the convertible
types, or anything else (rejected). -/
inductive GoType where
  | ctxRef : GoType
  | goError : GoType
  | ifaceVal : GoType
  | convertible (t : ParamType) : GoType
  | unsupported (name : String) : GoType
deriving DecidableEq

/-- Modelled from the spec: a convertible type is acceptable in a
signature when every fixed-length array level in it has length
greater than zero (README: an array of length > 0). -/
def validParamType : ParamType → Bool
  | .array len elem => decide (0 < len) && validParamType elem
  | .slice elem => validParamType elem
  | _ => true

/-- A non-context parameter position must hold an acceptable
convertible type. -/
def nonCtxParamOk : GoType → Bool
  | .convertible t => validParamType t
  | _ => false

/-- Modelled from the spec: parameter list rule (README): an optional
transaction context first, then any number of convertible
parameters; a context anywhere else is invalid. -/
def validParams (l : List GoType) : Bool :=
  match l with
  | .ctxRef :: rest => rest.all nonCtxParamOk
  | _ => l.all nonCtxParamOk

/-- Modelled from the spec: return list rule (README): zero, one or
two returns, at most one non-error and at most one error, the error
last. -/
def validReturns (l : List GoType) : Bool :=
  match l with
  | [] => true
  | [.goError] => true
  | [.convertible t] => validParamType t
  | [.convertible t, .goError] => validParamType t
  | _ => false

/-- Modelled from the spec: the Go signature of a candidate callable as
introspected at registration time. -/
structure GoFuncSig where
  params : List GoType
  returns : List GoType
deriving DecidableEq

/-- Modelled from the spec: validity of a public contract function at
registration time (README "Writing contract functions"). -/
def validContractFunction (s : GoFuncSig) : Bool :=
  validParams s.params && validReturns s.returns

/-- Modelled from the spec: validity of a before transaction function:
the tutorial revision matching the shipped chaincode states before
functions follow the same structure rules as contract functions for
parameters and returns, and the integration chaincode registers a
before function taking a context and a string parameter. -/
def validBeforeTransaction (s : GoFuncSig) : Bool :=
  validContractFunction s

/-- Modelled from the spec: validity of an after transaction function
(spec 4.2): an optional transaction-context parameter plus at most
one interface-typed parameter receiving whatever the main function
returned, with the usual return rules. -/
def validAfterTransaction (s : GoFuncSig) : Bool :=
  (s.params == [] || s.params == [.ctxRef] || s.params == [.ifaceVal] ||
    s.params == [.ctxRef, .ifaceVal]) && validReturns s.returns

/-- Modelled from the spec: validity of an unknown transaction
function: it may take only the transaction context or nothing
(tutorial on handling unknown function requests), with the usual
return rules. -/
def validUnknownTransaction (s : GoFuncSig) : Bool :=
  (s.params == [] || s.params == [.ctxRef]) && validReturns s.returns

/-- The before-hook signature rule exactly as the claim words it, for
comparison: only an optional transaction-context parameter, and at
most an error plus one other (ignored) return. -/
def beforeTakesOnlyContextRule (s : GoFuncSig) : Bool :=
  (s.params == [] || s.params == [.ctxRef]) && validReturns s.returns

/-- Modelled from the spec: a contract as presented for registration:
optional set name, struct name, the introspected signatures of its
public functions and of its configured hooks. -/
structure ContractDef where
  setName : String
  structName : String
  functions : List (String × GoFuncSig)
  beforeSig : Option GoFuncSig
  afterSig : Option GoFuncSig
  unknownSig : Option GoFuncSig

/-- Modelled from the spec: fail-fast registration-time validation of
one contract: every public function and every configured hook must
satisfy its signature rule (spec 4.2). -/
def validateContractDef (cd : ContractDef) : Bool :=
  cd.functions.all (fun p => validContractFunction p.2) &&
    (match cd.beforeSig with
     | some s => validBeforeTransaction s
     | none => true) &&
    (match cd.afterSig with
     | some s => validAfterTransaction s
     | none => true) &&
    (match cd.unknownSig with
     | some s => validUnknownTransaction s
     | none => true)

/-- The system contract of the chaincode, from
contractapi/system_contract.go: an embedded contract with a stored
metadata string. -/
structure SystemContract where
  metadata : String
deriving DecidableEq

/-- From contractapi/system_contract.go: setMetadata stores the given
metadata string on the system contract. -/
def SystemContract.setMetadata (sc : SystemContract) (m : String) : SystemContract :=
  { sc with metadata := m }

/-- From contractapi/system_contract.go: GetMetadata returns the stored
metadata string; the receiver is read, never written, which the
embedding makes explicit by returning it unchanged. -/
def SystemContract.GetMetadata (sc : SystemContract) : String × SystemContract :=
  (sc.metadata, sc)

/-- A freshly constructed system contract: the Go zero value of the
struct, whose metadata field is the empty string. -/
def newSystemContract : SystemContract := { metadata := "" }

/-- The operations that may touch the system contract state; the only
mutating operation in the source is setMetadata. -/
inductive SystemOp where
  | opSetMetadata (s : String) : SystemOp

/-- Apply a sequence of operations to the system contract in order. -/
def applySystemOps (sc : SystemContract) : List SystemOp → SystemContract
  | [] => sc
  | .opSetMetadata s :: rest => applySystemOps (sc.setMetadata s) rest

/-- The argument of the last setMetadata in a sequence, if any. -/
def lastSetMetadata : List SystemOp → Option String
  | [] => none
  | .opSetMetadata s :: rest => some ((lastSetMetadata rest).getD s)

/-- A character list that does not begin with a decimal digit, so a
greedy digit parse before it is unaffected by it. -/
def noDigitHead : List Char → Bool
  | [] => true
  | c :: _ => !c.isDigit

/-- A character list at which a JSON element may legally end: the end
of input, a separating comma, or a closing bracket. -/
def boundaryOk : List Char → Bool
  | [] => true
  | c :: _ => c == ',' || c == ']'

/-- The registered name of the resolved contract together with the
resolved function name, for stating resolution results without
comparing whole contracts. -/
def resolvedNsAndFn (cs : List Contract) (raw : String) : Option (String × String) :=
  match resolveContract cs raw with
  | .ok (c, fn) => some (c.name, fn)
  | .error _ => none

/-- Fixture: a before hook that takes no extra parameter and fails. -/
def beforeFailCallable : Callable :=
  { params := [], impl := fun ctx _ => (ctx, .retErr (some "before failed")) }

/-- Fixture: a before hook that takes no extra parameter, records that
it ran in the context call data, and succeeds. -/
def beforeOkCallable : Callable :=
  { params := [], impl := fun ctx _ => ({ ctx with callData := "before ran" }, .retErr none) }

/-- Fixture: an unknown transaction hook that succeeds silently. -/
def unknownOkCallable : Callable :=
  { params := [], impl := fun ctx _ => (ctx, .retErr none) }

/-- Fixture: an unknown transaction hook that, like the sample
handleUnknown, reads the raw invocation from the context and returns
an error naming it. -/
def unknownErrCallable : Callable :=
  { params := [],
    impl := fun ctx _ =>
      (ctx, .retErr (some ("Unknown function name " ++ ctx.functionName))) }

/-- Fixture: a main function taking one string parameter and returning
it with a nil error, like a Read returning the stored value. -/
def readMainCallable : Callable :=
  { params := [.str],
    impl := fun ctx vals => (ctx, .retValErr (vals.headD (.vStr "")) none) }

/-- Fixture: a main function taking a string and an int8 parameter,
like an Update taking a key and a numeric value. -/
def updateMainCallable : Callable :=
  { params := [.str, .int 8], impl := fun ctx _ => (ctx, .retErr none) }

/-- Fixture: a main function returning a string list and a nil error. -/
def coloursMainCallable : Callable :=
  { params := [],
    impl := fun ctx _ =>
      (ctx, .retValErr (.vArr [.vStr "red", .vStr "white", .vStr "blue"]) none) }

/-- Fixture: a main function returning a value and a non-nil error. -/
def failingMainCallable : Callable :=
  { params := [],
    impl := fun ctx _ => (ctx, .retValErr (.vStr "ignored") (some "boom")) }

/-- Fixture: an after hook that takes no extra parameter and succeeds. -/
def afterOkCallable : Callable :=
  { params := [], impl := fun ctx _ => (ctx, .retNone) }

/-- Fixture: a contract with a failing before hook and an unknown hook. -/
def contractBeforeFailUnknown : Contract :=
  { name := "simpleasset", functions := [],
    beforeTransaction := some beforeFailCallable, afterTransaction := none,
    unknownTransaction := some unknownOkCallable }

/-- Fixture: a contract with a succeeding before hook and an unknown
hook, like the extended simple asset sample. -/
def contractBeforeUnknown : Contract :=
  { name := "complexasset", functions := [],
    beforeTransaction := some beforeOkCallable, afterTransaction := none,
    unknownTransaction := some unknownErrCallable }

/-- Fixture: a contract with before hook, one main function and after
hook, for observing the hook ordering. -/
def hookedContract : Contract :=
  { name := "simpleasset", functions := [("Read", readMainCallable)],
    beforeTransaction := some beforeOkCallable,
    afterTransaction := some afterOkCallable, unknownTransaction := none }

/-- Fixture: a hook-free contract whose Update takes a numeric
parameter, for observing conversion failures. -/
def conversionContract : Contract :=
  { name := "simpleasset", functions := [("Update", updateMainCallable)],
    beforeTransaction := none, afterTransaction := none,
    unknownTransaction := none }

/-- Fixture: a hook-free contract with one succeeding and one failing
two-return function, for observing response framing. -/
def framingContract : Contract :=
  { name := "complexasset",
    functions := [("ReadColours", coloursMainCallable), ("Bad", failingMainCallable)],
    beforeTransaction := none, afterTransaction := none,
    unknownTransaction := none }

/-- Fixture: a hook-free simple asset contract registered under a
non-blank name. -/
def simpleRegContract : Contract :=
  { name := "simpleasset", functions := [("Read", readMainCallable)],
    beforeTransaction := none, afterTransaction := none,
    unknownTransaction := none }

/-- Fixture: a hook-free complex asset contract registered under a
non-blank name. -/
def complexRegContract : Contract :=
  { name := "complexasset", functions := [("ReadColours", coloursMainCallable)],
    beforeTransaction := none, afterTransaction := none,
    unknownTransaction := none }

/-- Fixture: a registry of two contracts, both registered with
non-blank names, the simple one first, as in the multiple asset
integration chaincode. -/
def twoContractRegistry : List Contract :=
  [simpleRegContract, complexRegContract]

/-- Fixture: a contract whose only hook is an unknown transaction
handler that errors, like the extended sample without its before
hook. -/
def plainUnknownContract : Contract :=
  { name := "simpleasset", functions := [],
    beforeTransaction := none, afterTransaction := none,
    unknownTransaction := some unknownErrCallable }

/-- Fixture: a hook-free contract with one function, so unknown names
on it fail with the not-found error. -/
def noHookContract : Contract :=
  { name := "simpleasset", functions := [("Read", readMainCallable)],
    beforeTransaction := none, afterTransaction := none,
    unknownTransaction := none }

/-- Fixture: a contract with a succeeding before hook and a succeeding
unknown hook. -/
def contractBeforeUnknownOk : Contract :=
  { name := "simpleasset", functions := [],
    beforeTransaction := some beforeOkCallable, afterTransaction := none,
    unknownTransaction := some unknownOkCallable }

/-- Fixture: a contract with a succeeding unknown hook and an after
hook, and no before hook. -/
def contractUnknownAfter : Contract :=
  { name := "simpleasset", functions := [],
    beforeTransaction := none, afterTransaction := some afterOkCallable,
    unknownTransaction := some unknownOkCallable }

/-- Fixture: a transaction context for a call to a function name that
no contract declares. -/
def missingCtx : TxContext :=
  { functionName := "simpleasset:Missing", parameters := ["ASSET_1"],
    worldState := [], callData := "" }

/-- Fixture: a transaction context for an Update call whose second raw
argument is not numeric. -/
def updCtx : TxContext :=
  { functionName := "simpleasset:Update", parameters := ["KEY_1", "abc"],
    worldState := [], callData := "" }

/-- Fixture: the introspected signature of the extended sample before
hook getAsset, which takes the transaction context and a string
parameter and returns an error. -/
def getAssetSig : GoFuncSig :=
  { params := [.ctxRef, .convertible .str], returns := [.goError] }

/-- Fixture: the introspected signature of the sample Create function. -/
def createSig : GoFuncSig :=
  { params := [.ctxRef, .convertible .str], returns := [.goError] }

/-- Fixture: the introspected signature of the sample Read function. -/
def readSig : GoFuncSig :=
  { params := [.ctxRef, .convertible .str],
    returns := [.convertible .str, .goError] }

/-- Fixture: the introspected signature of the sample handleUnknown
hook, which takes only the transaction context. -/
def handleUnknownSig : GoFuncSig :=
  { params := [.ctxRef], returns := [.goError] }

/-- Fixture: the extended simple asset contract as presented for
registration, with getAsset configured as its before hook. -/
def extendedAssetDef : ContractDef :=
  { setName := "", structName := "SimpleAsset",
    functions := [("Create", createSig), ("Read", readSig)],
    beforeSig := some getAssetSig, afterSig := none,
    unknownSig := some handleUnknownSig }

/-- Fixture: the nested colour list of the round-trip example. -/
def coloursValue : Value :=
  .vArr [.vArr [.vStr "a", .vStr "b"], .vArr [.vStr "c"]]

/-- Fixture: the declared type matching the nested colour list. -/
def coloursType : ParamType := .slice (.slice .str)

/-- Fixture: a string list whose leaves need JSON escaping: a quote, a
backslash, an HTML-sensitive character and a newline. -/
def escapedValue : Value :=
  .vArr [.vStr "a\"b\\c", .vStr "line\nbreak<tag>"]

/-- Fixture: the declared type matching the escaped string list. -/
def escapedType : ParamType := .slice .str

/-- Fixture: a float list with a fraction, a negative fraction below
one, and a whole number. -/
def floatsValue : Value :=
  .vArr [.vFloat false 3 [1, 4], .vFloat true 0 [5], .vFloat false 64 []]

/-- Fixture: the declared type matching the float list. -/
def floatsType : ParamType := .slice .float64

/-- Fixture: a transaction context as created for one concrete query. -/
def readCtx : TxContext :=
  { functionName := "simpleasset:Read", parameters := ["ASSET_1"],
    worldState := [("ASSET_1", "Initialised")], callData := "" }

theorem digitVal_digitChar : ∀ d, d < 10 → digitVal (Nat.digitChar d) = d := by
  decide

theorem isDigit_digitChar : ∀ d, d < 10 → (Nat.digitChar d).isDigit = true := by
  decide

theorem decimalVal_append_one (l : List Char) (c : Char) :
    decimalVal (l ++ [c]) = 10 * decimalVal l + digitVal c := by
  simp [decimalVal, List.foldl_append]

theorem natCharsGo_congr : ∀ fuel1 fuel2 n, n < fuel1 → n < fuel2 →
    natCharsGo fuel1 n = natCharsGo fuel2 n := by
  intro fuel1
  induction fuel1 with
  | zero => intro fuel2 n h1; omega
  | succ f1 ih =>
    intro fuel2 n h1 h2
    match fuel2 with
    | 0 => omega
    | f2 + 1 =>
      simp only [natCharsGo]
      split
      · rfl
      · rw [ih f2 (n / 10) (by omega) (by omega)]

theorem natChars_eq (n : Nat) :
    natChars n = if n < 10 then [Nat.digitChar n]
      else natChars (n / 10) ++ [Nat.digitChar (n % 10)] := by
  show natCharsGo (n + 1) n = _
  simp only [natCharsGo]
  split
  · rfl
  · next h =>
    rw [natCharsGo_congr n (n / 10 + 1) (n / 10) (by omega) (by omega)]
    rfl

theorem natChars_ne_nil (n : Nat) : natChars n ≠ [] := by
  rw [natChars_eq]
  split
  · simp
  · simp

theorem natChars_digits (n : Nat) : ∀ c ∈ natChars n, c.isDigit = true := by
  induction n using Nat.strong_induction_on with
  | _ n ih =>
    rw [natChars_eq]
    split
    · intro c hc
      simp only [List.mem_singleton] at hc
      subst hc
      exact isDigit_digitChar n (by omega)
    · intro c hc
      rcases List.mem_append.mp hc with h | h
      · exact ih (n / 10) (Nat.div_lt_self (by omega) (by omega)) c h
      · simp only [List.mem_singleton] at h
        subst h
        exact isDigit_digitChar (n % 10) (Nat.mod_lt _ (by omega))

theorem decimalVal_natChars (n : Nat) : decimalVal (natChars n) = n := by
  induction n using Nat.strong_induction_on with
  | _ n ih =>
    rw [natChars_eq]
    split
    · next h =>
      simp [decimalVal, digitVal_digitChar n h]
    · next h =>
      rw [decimalVal_append_one,
        ih (n / 10) (Nat.div_lt_self (by omega) (by omega)),
        digitVal_digitChar (n % 10) (Nat.mod_lt _ (by omega))]
      omega

theorem natChars_cons (n : Nat) :
    ∃ c t, natChars n = c :: t ∧ c.isDigit = true := by
  rcases h : natChars n with _ | ⟨c, t⟩
  · exact absurd h (natChars_ne_nil n)
  · exact ⟨c, t, rfl, natChars_digits n c (by rw [h]; exact List.mem_cons_self c t)⟩

theorem takeWhile_digits_append (l rest : List Char)
    (hl : ∀ c ∈ l, c.isDigit = true) (hr : noDigitHead rest = true) :
    (l ++ rest).takeWhile Char.isDigit = l ∧
      (l ++ rest).dropWhile Char.isDigit = rest := by
  induction l with
  | nil =>
    cases rest with
    | nil => simp
    | cons c r =>
      simp only [noDigitHead, Bool.not_eq_true'] at hr
      simp [List.takeWhile_cons, List.dropWhile_cons, hr]
  | cons c l ih =>
    have hc : c.isDigit = true := hl c (List.mem_cons_self c l)
    have := ih (fun x hx => hl x (List.mem_cons_of_mem c hx))
    simp [List.takeWhile_cons, List.dropWhile_cons, hc, this.1, this.2]

theorem parseDigits_natChars (n : Nat) (rest : List Char)
    (hr : noDigitHead rest = true) :
    parseDigits (natChars n ++ rest) = some (n, rest) := by
  have h := takeWhile_digits_append (natChars n) rest (natChars_digits n) hr
  simp only [parseDigits, h.1, h.2]
  rw [if_neg (natChars_ne_nil n), decimalVal_natChars]

theorem boundaryOk_noDigitHead (l : List Char) (h : boundaryOk l = true) :
    noDigitHead l = true := by
  cases l with
  | nil => rfl
  | cons c r =>
    simp only [boundaryOk, Bool.or_eq_true, beq_iff_eq] at h
    rcases h with h | h <;> subst h <;> simp [noDigitHead]

theorem hexVal_digitChar : ∀ d, d < 16 → hexVal (Nat.digitChar d) = some d := by
  decide

theorem parseStringBody_cons (c : Char) (l2 body rest : List Char)
    (h : parseStringBody l2 = some (body, rest)) :
    parseStringBody (escapeChar c ++ l2) = some (c :: body, rest) := by
  by_cases h1 : c = '"'
  · subst h1
    show parseStringBody ('\\' :: '"' :: l2) = _
    unfold parseStringBody
    simp [unescapeChar, h]
  · by_cases h2 : c = '\\'
    · subst h2
      show parseStringBody ('\\' :: '\\' :: l2) = _
      unfold parseStringBody
      simp [unescapeChar, h]
    · by_cases h3 : c = '\n'
      · subst h3
        show parseStringBody ('\\' :: 'n' :: l2) = _
        unfold parseStringBody
        simp [unescapeChar, h]
      · by_cases h4 : c = '\r'
        · subst h4
          show parseStringBody ('\\' :: 'r' :: l2) = _
          unfold parseStringBody
          simp [unescapeChar, h]
        · by_cases h5 : c = '\t'
          · subst h5
            show parseStringBody ('\\' :: 't' :: l2) = _
            unfold parseStringBody
            simp [unescapeChar, h]
          · by_cases h6 : c.toNat < 32 ∨ c = '<' ∨ c = '>' ∨ c = '&' ∨
                c.toNat = 8232 ∨ c.toNat = 8233
            · have hlt : c.toNat < 65536 := by
                rcases h6 with hx | hx | hx | hx | hx | hx
                · omega
                · subst hx; decide
                · subst hx; decide
                · subst hx; decide
                · omega
                · omega
              have e1 := hexVal_digitChar (c.toNat / 4096 % 16)
                (Nat.mod_lt _ (by omega))
              have e2 := hexVal_digitChar (c.toNat / 256 % 16)
                (Nat.mod_lt _ (by omega))
              have e3 := hexVal_digitChar (c.toNat / 16 % 16)
                (Nat.mod_lt _ (by omega))
              have e4 := hexVal_digitChar (c.toNat % 16)
                (Nat.mod_lt _ (by omega))
              have hval : ((c.toNat / 4096 % 16 * 16 + c.toNat / 256 % 16) * 16 +
                  c.toNat / 16 % 16) * 16 + c.toNat % 16 = c.toNat := by
                omega
              have hesc : escapeChar c ++ l2 =
                  '\\' :: 'u' :: Nat.digitChar (c.toNat / 4096 % 16) ::
                    Nat.digitChar (c.toNat / 256 % 16) ::
                    Nat.digitChar (c.toNat / 16 % 16) ::
                    Nat.digitChar (c.toNat % 16) :: l2 := by
                simp [escapeChar, h1, h2, h3, h4, h5, h6, hex4]
              rw [hesc]
              unfold parseStringBody
              simp [e1, e2, e3, e4, h, hval, Char.ofNat_toNat]
            · have hesc : escapeChar c = [c] := by
                simp [escapeChar, h1, h2, h3, h4, h5, h6]
              rw [hesc]
              show parseStringBody (c :: l2) = _
              unfold parseStringBody
              simp [h1, h2, h]

theorem parseStringBody_escapeChars (l rest : List Char) :
    parseStringBody (escapeChars l ++ '"' :: rest) = some (l, rest) := by
  induction l with
  | nil =>
    show parseStringBody ('"' :: rest) = _
    unfold parseStringBody
    simp
  | cons c l ih =>
    have h := parseStringBody_cons c (escapeChars l ++ '"' :: rest) l rest ih
    simpa [escapeChars, List.append_assoc] using h

theorem stringMk_data (s : String) : String.mk s.data = s := rfl

theorem digitVal_map_digitChar (ds : List Nat) (h : ∀ d ∈ ds, d < 10) :
    (ds.map Nat.digitChar).map digitVal = ds := by
  induction ds with
  | nil => rfl
  | cons d ds ih =>
    simp only [List.map_cons]
    rw [digitVal_digitChar d (h d (List.mem_cons_self d ds)),
      ih (fun x hx => h x (List.mem_cons_of_mem d hx))]

theorem isDigit_map_digitChar (ds : List Nat) (h : ∀ d ∈ ds, d < 10) :
    ∀ c ∈ ds.map Nat.digitChar, c.isDigit = true := by
  intro c hc
  obtain ⟨d, hd, rfl⟩ := List.mem_map.mp hc
  exact isDigit_digitChar d (h d hd)

theorem parseFloatMag_noFrac (ip : Nat) (rest : List Char)
    (hb : boundaryOk rest = true) :
    parseFloatMag (natChars ip ++ rest) = some (ip, [], rest) := by
  have h1 := parseDigits_natChars ip rest (boundaryOk_noDigitHead rest hb)
  unfold parseFloatMag
  rw [h1]
  cases rest with
  | nil => rfl
  | cons c r2 =>
    have hc : ¬(c = '.') := by
      simp only [boundaryOk, Bool.or_eq_true, beq_iff_eq] at hb
      rcases hb with h | h <;> subst h <;> decide
    simp [hc]

theorem parseFloatMag_render (ip : Nat) (frac : List Nat)
    (hf : ∀ d ∈ frac, d < 10) (rest : List Char) (hb : boundaryOk rest = true) :
    parseFloatMag (natChars ip ++
      ((if frac.isEmpty then [] else '.' :: frac.map Nat.digitChar) ++ rest)) =
      some (ip, frac, rest) := by
  cases frac with
  | nil =>
    have hfix : natChars ip ++
        ((if ([] : List Nat).isEmpty then []
          else '.' :: ([] : List Nat).map Nat.digitChar) ++ rest) =
        natChars ip ++ rest := by simp
    rw [hfix]
    exact parseFloatMag_noFrac ip rest hb
  | cons d ds =>
    have hdot : noDigitHead ('.' :: ((d :: ds).map Nat.digitChar ++ rest)) = true := by
      simp [noDigitHead]
    have h1 := parseDigits_natChars ip
      ('.' :: ((d :: ds).map Nat.digitChar ++ rest)) hdot
    have h2 := takeWhile_digits_append ((d :: ds).map Nat.digitChar) rest
      (isDigit_map_digitChar (d :: ds) hf) (boundaryOk_noDigitHead rest hb)
    have hfix : natChars ip ++
        ((if (d :: ds : List Nat).isEmpty then []
          else '.' :: (d :: ds).map Nat.digitChar) ++ rest) =
        natChars ip ++ ('.' :: ((d :: ds).map Nat.digitChar ++ rest)) := by
      simp
    rw [hfix]
    unfold parseFloatMag
    rw [h1]
    simp only [h2.1, h2.2, digitVal_map_digitChar (d :: ds) hf]
    simp

theorem parseJsonFloat_render (neg : Bool) (ip : Nat) (frac : List Nat)
    (hf : ∀ d ∈ frac, d < 10) (rest : List Char) (hb : boundaryOk rest = true) :
    parseJsonFloat (renderValue (.vFloat neg ip frac) ++ rest) =
      some (.vFloat neg ip frac, rest) := by
  have hmag := parseFloatMag_render ip frac hf rest hb
  cases neg
  · obtain ⟨c, t, hct, hd⟩ := natChars_cons ip
    have hcm : ¬(c = '-') := by
      intro he; subst he; simp at hd
    have harr : renderValue (.vFloat false ip frac) ++ rest =
        c :: (t ++ ((if frac.isEmpty then [] else '.' :: frac.map Nat.digitChar)
          ++ rest)) := by
      simp [renderValue, hct, List.append_assoc]
    have hback : c :: (t ++ ((if frac.isEmpty then []
        else '.' :: frac.map Nat.digitChar) ++ rest)) =
        natChars ip ++ ((if frac.isEmpty then []
          else '.' :: frac.map Nat.digitChar) ++ rest) := by
      simp [hct]
    rw [harr]
    simp only [parseJsonFloat, if_neg hcm, hback, hmag]
  · have harr : renderValue (.vFloat true ip frac) ++ rest =
        '-' :: (natChars ip ++ ((if frac.isEmpty then []
          else '.' :: frac.map Nat.digitChar) ++ rest)) := by
      simp [renderValue, List.append_assoc]
    rw [harr]
    simp only [parseJsonFloat, hmag]
    simp

theorem renderValue_cons (v : Value) :
    ∃ c t, renderValue v = c :: t ∧ ¬(c = ']') ∧ ¬(c = ',') := by
  cases v with
  | vStr s => exact ⟨'"', escapeChars s.data ++ ['"'], rfl, by decide, by decide⟩
  | vBool b =>
    cases b
    · exact ⟨'f', ['a', 'l', 's', 'e'], rfl, by decide, by decide⟩
    · exact ⟨'t', ['r', 'u', 'e'], rfl, by decide, by decide⟩
  | vInt i =>
    by_cases hi : i < 0
    · exact ⟨'-', natChars i.natAbs, by simp [renderValue, intChars, hi],
        by decide, by decide⟩
    · obtain ⟨c, t, hct, hd⟩ := natChars_cons i.toNat
      refine ⟨c, t, by simp [renderValue, intChars, hi, hct], ?_, ?_⟩
      · intro he; subst he; simp at hd
      · intro he; subst he; simp at hd
  | vUint n =>
    obtain ⟨c, t, hct, hd⟩ := natChars_cons n
    refine ⟨c, t, by simp [renderValue, hct], ?_, ?_⟩
    · intro he; subst he; simp at hd
    · intro he; subst he; simp at hd
  | vFloat neg ip frac =>
    cases neg
    · obtain ⟨c, t, hct, hd⟩ := natChars_cons ip
      refine ⟨c, t ++ (if frac.isEmpty then []
          else '.' :: frac.map Nat.digitChar),
        by simp [renderValue, hct, List.append_assoc], ?_, ?_⟩
      · intro he; subst he; simp at hd
      · intro he; subst he; simp at hd
    · refine ⟨'-', natChars ip ++ (if frac.isEmpty then []
        else '.' :: frac.map Nat.digitChar),
        by simp [renderValue, List.append_assoc], by decide, by decide⟩
  | vArr vs => exact ⟨'[', renderElems vs ++ [']'], rfl, by decide, by decide⟩

theorem renderValue_ne_nil (v : Value) : renderValue v ≠ [] := by
  obtain ⟨c, t, h, -, -⟩ := renderValue_cons v
  simp [h]

theorem length_renderElems (vs : List Value) :
    vs.length ≤ (renderElems vs).length := by
  match vs with
  | [] => simp [renderElems]
  | [v] =>
    have := renderValue_ne_nil v
    have : 0 < (renderValue v).length := List.length_pos.mpr this
    simp [renderElems]
    omega
  | v :: w :: vs =>
    have h1 := renderValue_ne_nil v
    have h1 : 0 < (renderValue v).length := List.length_pos.mpr h1
    have h2 := length_renderElems (w :: vs)
    simp only [renderElems, List.length_append, List.length_cons]
    simp only [List.length_cons] at h2
    omega

theorem parseElems_renderElems (p : List Char → Option (Value × List Char))
    (vs : List Value) (hne : vs ≠ [])
    (hp : ∀ v ∈ vs, ∀ r, boundaryOk r = true → p (renderValue v ++ r) = some (v, r)) :
    ∀ fuel rest, vs.length ≤ fuel →
      parseElems p fuel (renderElems vs ++ ']' :: rest) = some (vs, rest) := by
  match vs with
  | [] => exact absurd rfl hne
  | [v] =>
    intro fuel rest hfuel
    match fuel with
    | 0 => simp at hfuel
    | fuel + 1 =>
      have hb : boundaryOk (']' :: rest) = true := by simp [boundaryOk]
      simp only [renderElems, parseElems,
        hp v (List.mem_singleton.mpr rfl) (']' :: rest) hb]
      simp
  | v :: w :: vs =>
    intro fuel rest hfuel
    match fuel with
    | 0 => simp at hfuel
    | fuel + 1 =>
      have hb : boundaryOk (',' :: (renderElems (w :: vs) ++ ']' :: rest)) = true := by
        simp [boundaryOk]
      have hrec := parseElems_renderElems p (w :: vs) (by simp)
        (fun x hx r hr => hp x (List.mem_cons_of_mem v hx) r hr) fuel rest
        (by simp only [List.length_cons] at hfuel ⊢; omega)
      have hhead := hp v (List.mem_cons_self v (w :: vs))
        (',' :: (renderElems (w :: vs) ++ ']' :: rest)) hb
      simp only [renderElems, List.cons_append, List.append_assoc,
        List.cons_append, parseElems] at hhead ⊢
      rw [hhead]
      simp [hrec]

theorem parseJsonValue_renderValue (ty : ParamType) :
    ∀ (v : Value), wellTyped v ty = true →
    ∀ rest, boundaryOk rest = true →
    parseJsonValue ty (renderValue v ++ rest) = some (v, rest) := by
  induction ty with
  | str =>
    intro v hwt rest hb
    cases v with
    | vStr s =>
      have harr : renderValue (.vStr s) ++ rest =
          '"' :: (escapeChars s.data ++ '"' :: rest) := by
        simp [renderValue]
      rw [harr]
      simp [parseJsonValue, parseStringBody_escapeChars s.data rest,
        stringMk_data]
    | vBool b => simp [wellTyped] at hwt
    | vInt i => simp [wellTyped] at hwt
    | vUint n => simp [wellTyped] at hwt
    | vFloat neg ip frac => simp [wellTyped] at hwt
    | vArr vs => simp [wellTyped] at hwt
  | boolean =>
    intro v hwt rest hb
    cases v with
    | vBool b =>
      cases b
      · show parseJsonValue .boolean (['f', 'a', 'l', 's', 'e'] ++ rest) = _
        simp [parseJsonValue, List.take_succ_cons, List.drop_succ_cons]
      · show parseJsonValue .boolean (['t', 'r', 'u', 'e'] ++ rest) = _
        simp [parseJsonValue, List.take_succ_cons, List.drop_succ_cons]
    | vStr s => simp [wellTyped] at hwt
    | vInt i => simp [wellTyped] at hwt
    | vUint n => simp [wellTyped] at hwt
    | vFloat neg ip frac => simp [wellTyped] at hwt
    | vArr vs => simp [wellTyped] at hwt
  | int w =>
    intro v hwt rest hb
    cases v with
    | vInt i =>
      have hbounds : intMin w ≤ i ∧ i ≤ intMax w := by
        simpa [wellTyped] using hwt
      have hnd := boundaryOk_noDigitHead rest hb
      by_cases hi : i < 0
      · have habs : (↑i.natAbs : Int) = -i :=
          Int.ofNat_natAbs_of_nonpos (le_of_lt hi)
        have hval : -(↑i.natAbs : Int) = i := by omega
        have harr : renderValue (.vInt i) ++ rest =
            '-' :: (natChars i.natAbs ++ rest) := by
          simp [renderValue, intChars, hi]
        rw [harr]
        simp only [parseJsonValue, if_pos rfl,
          parseDigits_natChars i.natAbs rest hnd, hval]
        simp [hbounds.1, hbounds.2]
      · have hpos : 0 ≤ i := by omega
        have hval : (↑i.toNat : Int) = i := Int.toNat_of_nonneg hpos
        obtain ⟨c, t, hct, hd⟩ := natChars_cons i.toNat
        have hcm : ¬(c = '-') := by
          intro he; subst he; simp at hd
        have harr : renderValue (.vInt i) ++ rest = c :: (t ++ rest) := by
          simp [renderValue, intChars, hi, hct]
        have hback : c :: (t ++ rest) = natChars i.toNat ++ rest := by
          simp [hct]
        rw [harr]
        simp only [parseJsonValue, if_neg hcm, hback,
          parseDigits_natChars i.toNat rest hnd, hval]
        simp [hbounds.1, hbounds.2]
    | vStr s => simp [wellTyped] at hwt
    | vBool b => simp [wellTyped] at hwt
    | vUint n => simp [wellTyped] at hwt
    | vFloat neg ip frac => simp [wellTyped] at hwt
    | vArr vs => simp [wellTyped] at hwt
  | uint w =>
    intro v hwt rest hb
    cases v with
    | vUint n =>
      have hbound : n ≤ uintMax w := by simpa [wellTyped] using hwt
      have hnd := boundaryOk_noDigitHead rest hb
      show parseJsonValue (.uint w) (natChars n ++ rest) = _
      simp only [parseJsonValue, parseDigits_natChars n rest hnd]
      rw [if_pos hbound]
    | vStr s => simp [wellTyped] at hwt
    | vBool b => simp [wellTyped] at hwt
    | vInt i => simp [wellTyped] at hwt
    | vFloat neg ip frac => simp [wellTyped] at hwt
    | vArr vs => simp [wellTyped] at hwt
  | float32 =>
    intro v hwt rest hb
    cases v with
    | vFloat neg ip frac =>
      have hf : ∀ d ∈ frac, d < 10 := by
        have := hwt
        simp only [wellTyped, floatDigitsOk, Bool.and_eq_true,
          List.all_eq_true, decide_eq_true_eq] at this
        exact this.1
      show parseJsonValue .float32 (renderValue (.vFloat neg ip frac) ++ rest) = _
      simp only [parseJsonValue]
      exact parseJsonFloat_render neg ip frac hf rest hb
    | vStr s => simp [wellTyped] at hwt
    | vBool b => simp [wellTyped] at hwt
    | vInt i => simp [wellTyped] at hwt
    | vUint n => simp [wellTyped] at hwt
    | vArr vs => simp [wellTyped] at hwt
  | float64 =>
    intro v hwt rest hb
    cases v with
    | vFloat neg ip frac =>
      have hf : ∀ d ∈ frac, d < 10 := by
        have := hwt
        simp only [wellTyped, floatDigitsOk, Bool.and_eq_true,
          List.all_eq_true, decide_eq_true_eq] at this
        exact this.1
      show parseJsonValue .float64 (renderValue (.vFloat neg ip frac) ++ rest) = _
      simp only [parseJsonValue]
      exact parseJsonFloat_render neg ip frac hf rest hb
    | vStr s => simp [wellTyped] at hwt
    | vBool b => simp [wellTyped] at hwt
    | vInt i => simp [wellTyped] at hwt
    | vUint n => simp [wellTyped] at hwt
    | vArr vs => simp [wellTyped] at hwt
  | array len elem ih =>
    intro v hwt rest hb
    cases v with
    | vArr vs =>
      have hwt2 : vs.length = len ∧ ∀ x ∈ vs, wellTyped x elem = true := by
        have := hwt
        simp only [wellTyped, Bool.and_eq_true, decide_eq_true_eq,
          List.all_eq_true] at this
        exact this
      cases vs with
      | nil =>
        have hlen : len = 0 := by simpa using hwt2.1.symm
        simp [renderValue, renderElems, parseJsonValue, hlen]
      | cons v0 vs' =>
        obtain ⟨c0, t0, hc0, hc0b, -⟩ := renderValue_cons v0
        have hre : ∃ t, renderElems (v0 :: vs') = c0 :: t := by
          cases vs' with
          | nil => exact ⟨t0, by simp [renderElems, hc0]⟩
          | cons w ws =>
            exact ⟨t0 ++ ',' :: renderElems (w :: ws), by simp [renderElems, hc0]⟩
        obtain ⟨t, ht⟩ := hre
        have harr : renderValue (.vArr (v0 :: vs')) ++ rest =
            '[' :: (renderElems (v0 :: vs') ++ ']' :: rest) := by
          simp [renderValue]
        have hcons : renderElems (v0 :: vs') ++ ']' :: rest =
            c0 :: (t ++ ']' :: rest) := by simp [ht]
        have hfuel : (v0 :: vs').length ≤
            (renderElems (v0 :: vs') ++ ']' :: rest).length := by
          have := length_renderElems (v0 :: vs')
          simp only [List.length_append]
          omega
        have helems := parseElems_renderElems (parseJsonValue elem) (v0 :: vs')
          (by simp)
          (fun x hx r hr => ih x (hwt2.2 x hx) r hr)
          (renderElems (v0 :: vs') ++ ']' :: rest).length rest hfuel
        rw [harr, hcons]
        simp only [parseJsonValue, if_pos rfl, if_neg hc0b, ← hcons, helems]
        simp [hwt2.1]
    | vStr s => simp [wellTyped] at hwt
    | vBool b => simp [wellTyped] at hwt
    | vInt i => simp [wellTyped] at hwt
    | vUint n => simp [wellTyped] at hwt
    | vFloat neg ip frac => simp [wellTyped] at hwt
  | slice elem ih =>
    intro v hwt rest hb
    cases v with
    | vArr vs =>
      have hwt2 : ∀ x ∈ vs, wellTyped x elem = true := by
        have := hwt
        simp only [wellTyped, List.all_eq_true] at this
        exact this
      cases vs with
      | nil => simp [renderValue, renderElems, parseJsonValue]
      | cons v0 vs' =>
        obtain ⟨c0, t0, hc0, hc0b, -⟩ := renderValue_cons v0
        have hre : ∃ t, renderElems (v0 :: vs') = c0 :: t := by
          cases vs' with
          | nil => exact ⟨t0, by simp [renderElems, hc0]⟩
          | cons w ws =>
            exact ⟨t0 ++ ',' :: renderElems (w :: ws), by simp [renderElems, hc0]⟩
        obtain ⟨t, ht⟩ := hre
        have harr : renderValue (.vArr (v0 :: vs')) ++ rest =
            '[' :: (renderElems (v0 :: vs') ++ ']' :: rest) := by
          simp [renderValue]
        have hcons : renderElems (v0 :: vs') ++ ']' :: rest =
            c0 :: (t ++ ']' :: rest) := by simp [ht]
        have hfuel : (v0 :: vs').length ≤
            (renderElems (v0 :: vs') ++ ']' :: rest).length := by
          have := length_renderElems (v0 :: vs')
          simp only [List.length_append]
          omega
        have helems := parseElems_renderElems (parseJsonValue elem) (v0 :: vs')
          (by simp)
          (fun x hx r hr => ih x (hwt2 x hx) r hr)
          (renderElems (v0 :: vs') ++ ']' :: rest).length rest hfuel
        rw [harr, hcons]
        simp only [parseJsonValue, if_pos rfl, if_neg hc0b, ← hcons, helems]
        simp
    | vStr s => simp [wellTyped] at hwt
    | vBool b => simp [wellTyped] at hwt
    | vInt i => simp [wellTyped] at hwt
    | vUint n => simp [wellTyped] at hwt
    | vFloat neg ip frac => simp [wellTyped] at hwt

theorem frameResponse_of_errMsg (hr : HandlerResult) (m : String)
    (h : hr.errMsg = some m) : frameResponse hr = .failure m := by
  cases hr with
  | retNone => simp [HandlerResult.errMsg] at h
  | retVal v => simp [HandlerResult.errMsg] at h
  | retErr e =>
    simp only [HandlerResult.errMsg] at h
    rw [h]
    rfl
  | retValErr v e =>
    simp only [HandlerResult.errMsg] at h
    rw [h]
    rfl

theorem runBeforeStage_ok_steps (c : Contract) (ctx ctx1 : TxContext)
    (pre : List Step) (h : runBeforeStage c ctx = .ok (ctx1, pre)) :
    ∀ x ∈ pre, x = Step.stepBefore := by
  unfold runBeforeStage at h
  split at h
  · cases h
    intro x hx
    simp at hx
  · split at h
    · cases h
    · split at h
      · cases h
      · cases h
        intro x hx
        simpa using hx

theorem runBeforeStage_err_steps (c : Contract) (ctx : TxContext)
    (r : Outcome × List Step) (h : runBeforeStage c ctx = .error r) :
    ∀ x ∈ r.2, x = Step.stepBefore := by
  unfold runBeforeStage at h
  split at h
  · cases h
  · split at h
    · cases h
      intro x hx
      simp at hx
    · split at h
      · cases h
        intro x hx
        simpa using hx
      · cases h

theorem runAfterStage_mem (c : Contract) (ctx : TxContext) (mv : Option Value)
    (out : Outcome) :
    ∀ x ∈ (runAfterStage c ctx mv out).2, x = Step.stepAfter := by
  unfold runAfterStage
  split
  · intro x hx; simp at hx
  · split
    · intro x hx; simpa using hx
    · intro x hx; simpa using hx

theorem runMainAfter_mem (c : Contract) (m : Callable) (st : Step) (ctx : TxContext) :
    ∀ x ∈ (runMainAfter c m st ctx).2, x = st ∨ x = Step.stepAfter := by
  rcases hrc : runCallable m ctx with e | ⟨ctx2, hr⟩
  · simp [runMainAfter, hrc]
  · rcases hmsg : hr.errMsg with _ | msg
    · rcases hp : runAfterStage c ctx2 hr.retValue (frameResponse hr)
        with ⟨out2, steps2⟩
      have hmem := runAfterStage_mem c ctx2 hr.retValue (frameResponse hr)
      rw [hp] at hmem
      simp only [runMainAfter, hrc, hmsg, hp]
      intro x hx
      rcases List.mem_cons.mp hx with he | hm2
      · exact Or.inl he
      · exact Or.inr (hmem x hm2)
    · simp only [runMainAfter, hrc, hmsg]
      intro x hx
      exact Or.inl (by simpa using hx)

theorem splitAtColon_none (l : List Char) (h : ':' ∉ l) :
    splitAtColon l = none := by
  induction l with
  | nil => rfl
  | cons c r ih =>
    have hc : ¬(c = ':') := fun he => h (he ▸ List.mem_cons_self c r)
    have hr : ':' ∉ r := fun hm => h (List.mem_cons_of_mem c hm)
    simp [splitAtColon, hc, ih hr]

/-- Claim C1 counterexample: on a contract that has an unknown-function
hook together with a before hook that errors, a call to an unregistered
function name does not invoke the unknown hook at all and terminates
with the before hook error, so the hook outcome is not the terminal
outcome as the claim states. -/
theorem c1_counterexample :
    contractBeforeFailUnknown.unknownTransaction.isSome = true ∧
    (contractBeforeFailUnknown.functions.lookup "Missing").isNone = true ∧
    handleRequest [contractBeforeFailUnknown] "simpleasset:Missing" [] [] =
      (.failure "before failed", [.stepBefore]) :=
  ⟨rfl, rfl, rfl⟩

/-- Claim C1 (amended): for a call to a function name absent from the
resolved contract, if the contract has no unknown-function hook the
call fails with a FunctionNotFoundError whose message contains the
literal function name and the contract name; if it has an
unknown-function hook and no before or after hook, the unknown hook is
invoked (exactly once, as the only step) and its framed outcome is the
call terminal outcome. -/
theorem c1_unknown_dispatch (c : Contract) (fn : String) (ctx : TxContext)
    (hf : c.functions.lookup fn = none) :
    (c.unknownTransaction = none →
      invokeResolved c fn ctx =
        (.failure (CallError.functionNotFound fn c.name).message, []) ∧
      (∃ pre post, (CallError.functionNotFound fn c.name).message.data =
        pre ++ fn.data ++ post) ∧
      (∃ pre post, (CallError.functionNotFound fn c.name).message.data =
        pre ++ c.name.data ++ post)) ∧
    (∀ u ctx2 hr, c.unknownTransaction = some u → u.params = [] →
      c.beforeTransaction = none → c.afterTransaction = none →
      u.impl ctx [] = (ctx2, hr) →
      invokeResolved c fn ctx = (frameResponse hr, [.stepUnknown])) := by
  constructor
  · intro hun
    refine ⟨?_, ?_, ?_⟩
    · simp [invokeResolved, mainCallable, hf, hun]
    · exact ⟨"Function ".data, (" not found in contract " ++ c.name).data,
        by simp [CallError.message, String.data_append]⟩
    · refine ⟨("Function " ++ fn ++ " not found in contract ").data, [], ?_⟩
      simp [CallError.message, String.data_append]
  · intro u ctx2 hr hu hup hbn han him
    rcases hmsg : hr.errMsg with _ | m
    · simp only [invokeResolved, mainCallable, hf, hu, runBeforeStage, hbn,
        runMainAfter, runCallable, hup, convertArgs, convertArgsFrom, him, hmsg,
        runAfterStage, han]
      simp
    · rw [frameResponse_of_errMsg hr m hmsg]
      simp only [invokeResolved, mainCallable, hf, hu, runBeforeStage, hbn,
        runMainAfter, runCallable, hup, convertArgs, convertArgsFrom, him, hmsg]
      simp

/-- Claim C1 witness: the amended dispatch behaviour observed on
concrete contracts: with an unknown hook and no other hooks the hook
error is terminal and the only step is the unknown hook; without an
unknown hook the not-found failure is terminal and nothing runs. -/
theorem c1_unknown_dispatch_witness :
    invokeResolved plainUnknownContract "Missing" missingCtx =
      (.failure "Unknown function name simpleasset:Missing", [.stepUnknown]) ∧
    invokeResolved noHookContract "Missing" missingCtx =
      (.failure "Function Missing not found in contract simpleasset", []) := by
  have h1 := c1_unknown_dispatch plainUnknownContract "Missing" missingCtx rfl
  have h2 := c1_unknown_dispatch noHookContract "Missing" missingCtx rfl
  exact ⟨h1.2 unknownErrCallable missingCtx
      (.retErr (some "Unknown function name simpleasset:Missing"))
      rfl rfl rfl rfl rfl,
    (h2.1 rfl).1⟩

/-- Claim C2: for a call resolving to a known function on a contract
with a before hook, main handler and after hook, when the before hook
and the main handler both succeed the steps observed are exactly
before, main, after, in that order; when the before hook returns a
non-nil error neither main nor after runs; when the main handler
returns a non-nil error the after hook does not run. -/
theorem c2_hook_ordering (c : Contract) (fn : String) (b a m : Callable)
    (ctx0 ctx1 ctx2 : TxContext) (bvals mvals : List Value)
    (hrB hrM : HandlerResult)
    (hb : c.beforeTransaction = some b) (ha : c.afterTransaction = some a)
    (hm : c.functions.lookup fn = some m)
    (hcb : convertArgs b.params ctx0.parameters = .ok bvals)
    (hib : b.impl ctx0 bvals = (ctx1, hrB))
    (hcm : convertArgs m.params ctx1.parameters = .ok mvals)
    (him : m.impl ctx1 mvals = (ctx2, hrM)) :
    (hrB.errMsg = none → hrM.errMsg = none →
      (invokeResolved c fn ctx0).2 = [.stepBefore, .stepMain, .stepAfter]) ∧
    (∀ e, hrB.errMsg = some e →
      invokeResolved c fn ctx0 = (.failure e, [.stepBefore])) ∧
    (∀ e, hrB.errMsg = none → hrM.errMsg = some e →
      invokeResolved c fn ctx0 = (.failure e, [.stepBefore, .stepMain])) := by
  refine ⟨?_, ?_, ?_⟩
  · intro hBn hMn
    rcases hia : a.impl ctx2 hrM.retValue.toList with ⟨ctx3, hrA⟩
    rcases hmsg : hrA.errMsg with _ | e <;>
      simp [invokeResolved, mainCallable, hm, runBeforeStage, hb, runCallable,
        hcb, hib, hBn, runMainAfter, hcm, him, hMn, runAfterStage, ha, hia,
        hmsg]
  · intro e hBe
    simp [invokeResolved, mainCallable, hm, runBeforeStage, hb, runCallable,
      hcb, hib, hBe]
  · intro e hBn hMe
    simp [invokeResolved, mainCallable, hm, runBeforeStage, hb, runCallable,
      hcb, hib, hBn, runMainAfter, hcm, him, hMe]

/-- Claim C2 witness: on a concrete contract with before hook, Read
handler and after hook, a successful Read shows the steps before,
main, after exactly once each and in order. -/
theorem c2_hook_ordering_witness :
    (invokeResolved hookedContract "Read" readCtx).2 =
      [Step.stepBefore, Step.stepMain, Step.stepAfter] := by
  have h := c2_hook_ordering hookedContract "Read" beforeOkCallable
    afterOkCallable readMainCallable readCtx
    { readCtx with callData := "before ran" }
    { readCtx with callData := "before ran" } [] [.vStr "ASSET_1"]
    (.retErr none) (.retValErr (.vStr "ASSET_1") none)
    rfl rfl rfl rfl rfl rfl rfl
  exact h.1 rfl rfl

/-- Claim C3: when the raw arguments cannot all be coerced to the
resolved function declared parameter types, the call (its before
stage having completed) terminates with a conversion error naming the
offending parameter position and expected type, and the main handler
is never invoked. -/
theorem c3_conversion_failure (c : Contract) (fn : String) (m : Callable)
    (ctx0 ctx1 : TxContext) (pre : List Step) (i : Nat) (ty : ParamType)
    (hm : c.functions.lookup fn = some m)
    (hpre : runBeforeStage c ctx0 = .ok (ctx1, pre))
    (hc : convertArgs m.params ctx1.parameters =
      .error (.conversionError i ty)) :
    invokeResolved c fn ctx0 =
      (.failure ("Error converting argument " ++ String.mk (natChars i) ++
        " to type " ++ typeName ty), pre) ∧
    Step.stepMain ∉ (invokeResolved c fn ctx0).2 := by
  have hmain : invokeResolved c fn ctx0 =
      (.failure (CallError.conversionError i ty).message, pre) := by
    simp [invokeResolved, mainCallable, hm, hpre, runMainAfter, runCallable, hc]
  constructor
  · rw [hmain]
    rfl
  · rw [hmain]
    intro hmem
    have := runBeforeStage_ok_steps c ctx0 ctx1 pre hpre Step.stepMain hmem
    cases this

/-- Claim C3 witness: calling Update with the non-numeric second raw
argument abc on a declared int8 parameter fails with the conversion
error naming position 1 and type int8 and never runs the handler. -/
theorem c3_conversion_failure_witness :
    invokeResolved conversionContract "Update" updCtx =
      (.failure ("Error converting argument " ++ String.mk (natChars 1) ++
        " to type " ++ typeName (.int 8)), []) ∧
    Step.stepMain ∉ (invokeResolved conversionContract "Update" updCtx).2 :=
  c3_conversion_failure conversionContract "Update" updateMainCallable
    updCtx updCtx [] 1 (.int 8) rfl rfl rfl

/-- Claim C4: for a handler declared with a non-error value and an
error, a non-nil returned error makes the failure payload carry the
error message with the success value not converted (the outcome is
the same failure for every success value), and a nil error makes the
converted success value the success payload, where composite values
are JSON encoded and non-string scalars use the host default
formatting. -/
theorem c4_two_return_framing (c : Contract) (fn : String) (m : Callable)
    (ctx : TxContext) (vals : List Value)
    (hm : c.functions.lookup fn = some m)
    (hb : c.beforeTransaction = none) (ha : c.afterTransaction = none)
    (hc : convertArgs m.params ctx.parameters = .ok vals) :
    (∀ ctx2 v e, m.impl ctx vals = (ctx2, .retValErr v (some e)) →
      invokeResolved c fn ctx = (.failure e, [.stepMain])) ∧
    (∀ ctx2 v, m.impl ctx vals = (ctx2, .retValErr v none) →
      invokeResolved c fn ctx = (.success (outputConvert v), [.stepMain])) ∧
    (∀ vs, outputConvert (.vArr vs) = String.mk (renderValue (.vArr vs))) ∧
    (∀ j, outputConvert (.vInt j) = String.mk (intChars j)) ∧
    (∀ bo, outputConvert (.vBool bo) = if bo then "true" else "false") := by
  refine ⟨?_, ?_, fun vs => rfl, fun j => rfl, fun bo => rfl⟩
  · intro ctx2 v e him
    simp [invokeResolved, mainCallable, hm, runBeforeStage, hb, runMainAfter,
      runCallable, hc, him, HandlerResult.errMsg]
  · intro ctx2 v him
    simp [invokeResolved, mainCallable, hm, runBeforeStage, hb, runMainAfter,
      runCallable, hc, him, HandlerResult.errMsg, runAfterStage, ha,
      frameResponse]

/-- Claim C4 witness: a failing two-return handler surfaces exactly its
error message, and a succeeding one surfaces its string list JSON
encoded. -/
theorem c4_two_return_framing_witness :
    invokeResolved framingContract "Bad" readCtx =
      (.failure "boom", [.stepMain]) ∧
    invokeResolved framingContract "ReadColours" readCtx =
      (.success (outputConvert
        (.vArr [.vStr "red", .vStr "white", .vStr "blue"])), [.stepMain]) := by
  have h1 := c4_two_return_framing framingContract "Bad" failingMainCallable
    readCtx [] rfl rfl rfl rfl
  have h2 := c4_two_return_framing framingContract "ReadColours"
    coloursMainCallable readCtx [] rfl rfl rfl rfl
  exact ⟨h1.1 readCtx (.vStr "ignored") "boom" rfl,
    h2.2.1 readCtx (.vArr [.vStr "red", .vStr "white", .vStr "blue"]) rfl⟩

/-- Claim C5 counterexample: with two contracts registered, both under
non-blank names (so none is default) and the simple one first, the
bare name ReadColours resolves against the first registered contract,
although the claim rule (default contract if exactly one default,
else sole contract if exactly one overall) resolves nothing here. -/
theorem c5_counterexample :
    resolvedNsAndFn twoContractRegistry "ReadColours" =
      some ("simpleasset", "ReadColours") ∧
    (resolveBareSpecRule twoContractRegistry).isSome = false ∧
    (twoContractRegistry.filter (fun c => c.name == "")).length = 0 ∧
    twoContractRegistry.length = 2 :=
  ⟨rfl, rfl, rfl, rfl⟩

/-- Claim C5 (amended): a raw call name without the namespace
separator is treated wholly as the function name and resolves against
the first registered contract; registration never produces an unnamed
contract, since a blank set name falls back to the struct name. -/
theorem c5_bare_name_resolution (c0 : Contract) (rest : List Contract)
    (raw : String) (hnc : ':' ∉ raw.data) :
    resolveContract (c0 :: rest) raw = .ok (c0, raw) ∧
    (∀ setN structN : String, structN ≠ "" →
      resolvedName setN structN ≠ "") := by
  constructor
  · simp [resolveContract, splitAtColon_none raw.data hnc]
  · intro setN structN hst
    unfold resolvedName
    split
    · exact hst
    · next h => exact h

/-- Claim C5 witness: the bare name Read with the two-contract registry
resolves against the first registered contract. -/
theorem c5_bare_name_resolution_witness :
    resolveContract twoContractRegistry "Read" =
      .ok (simpleRegContract, "Read") :=
  (c5_bare_name_resolution simpleRegContract [complexRegContract] "Read"
    (by decide)).1

/-- Claim C6 counterexample: on a contract with a before hook and an
unknown hook, a call to an undeclared function runs the before hook
and then the unknown hook; and on a contract with an after hook and a
succeeding unknown hook, the after hook runs after the unknown hook.
So the unknown hook is not the only hook invoked as the claim
states. -/
theorem c6_counterexample :
    contractBeforeUnknown.beforeTransaction.isSome = true ∧
    (contractBeforeUnknown.functions.lookup "Missing").isNone = true ∧
    (handleRequest [contractBeforeUnknown] "complexasset:Missing" ["X"]
      []).2 = [.stepBefore, .stepUnknown] ∧
    contractUnknownAfter.afterTransaction.isSome = true ∧
    handleRequest [contractUnknownAfter] "simpleasset:Missing" [] [] =
      (.success "", [.stepUnknown, .stepAfter]) :=
  ⟨rfl, rfl, rfl, rfl, rfl⟩

/-- Claim C6 (amended): when the resolved contract has no matching
function descriptor and an unknown-function hook exists, the main
handler never runs and the unknown hook is called with the
Transaction Context in its place: a before-hook error is terminal
before it; with no after hook a successful unknown hook's framed
outcome is terminal; and a defined after hook runs after a
successful unknown hook, with the unknown hook's framed outcome
terminal when the after hook does not error. -/
theorem c6_unknown_replaces_main (c : Contract) (fn : String)
    (ctx : TxContext) (u : Callable)
    (hf : c.functions.lookup fn = none)
    (hu : c.unknownTransaction = some u) :
    Step.stepMain ∉ (invokeResolved c fn ctx).2 ∧
    (∀ r, runBeforeStage c ctx = .error r → invokeResolved c fn ctx = r) ∧
    (∀ ctx1 pre ctx2 hr, runBeforeStage c ctx = .ok (ctx1, pre) →
      u.params = [] → u.impl ctx1 [] = (ctx2, hr) → hr.errMsg = none →
      c.afterTransaction = none →
      invokeResolved c fn ctx = (frameResponse hr, pre ++ [.stepUnknown])) ∧
    (∀ ctx1 pre ctx2 hr a ctx3 hrA, runBeforeStage c ctx = .ok (ctx1, pre) →
      u.params = [] → u.impl ctx1 [] = (ctx2, hr) → hr.errMsg = none →
      c.afterTransaction = some a →
      a.impl ctx2 hr.retValue.toList = (ctx3, hrA) →
      (invokeResolved c fn ctx).2 = pre ++ [.stepUnknown, .stepAfter] ∧
      (hrA.errMsg = none →
        invokeResolved c fn ctx =
          (frameResponse hr, pre ++ [.stepUnknown, .stepAfter]))) := by
  refine ⟨?_, ?_, ?_, ?_⟩
  · rcases hbs : runBeforeStage c ctx with r | ⟨ctx1, pre⟩
    · intro hmem
      have h : invokeResolved c fn ctx = r := by
        simp [invokeResolved, mainCallable, hf, hu, hbs]
      rw [h] at hmem
      have := runBeforeStage_err_steps c ctx r hbs Step.stepMain hmem
      cases this
    · rcases hma : runMainAfter c u Step.stepUnknown ctx1 with ⟨out, steps⟩
      have h : (invokeResolved c fn ctx).2 = pre ++ steps := by
        simp [invokeResolved, mainCallable, hf, hu, hbs, hma]
      rw [h]
      intro hmem
      rcases List.mem_append.mp hmem with hp | hs
      · have := runBeforeStage_ok_steps c ctx ctx1 pre hbs Step.stepMain hp
        cases this
      · have hm2 := runMainAfter_mem c u Step.stepUnknown ctx1 Step.stepMain
        rw [hma] at hm2
        rcases hm2 hs with h1 | h1 <;> cases h1
  · intro r hbs
    simp [invokeResolved, mainCallable, hf, hu, hbs]
  · intro ctx1 pre ctx2 hr hbs hup him hmsg han
    simp [invokeResolved, mainCallable, hf, hu, hbs, runMainAfter, runCallable,
      hup, convertArgs, convertArgsFrom, him, hmsg, runAfterStage, han]
  · intro ctx1 pre ctx2 hr a ctx3 hrA hbs hup him hmsg han hia
    constructor
    · rcases hmsgA : hrA.errMsg with _ | e <;>
        simp [invokeResolved, mainCallable, hf, hu, hbs, runMainAfter,
          runCallable, hup, convertArgs, convertArgsFrom, him, hmsg,
          runAfterStage, han, hia, hmsgA]
    · intro hAn
      simp [invokeResolved, mainCallable, hf, hu, hbs, runMainAfter,
        runCallable, hup, convertArgs, convertArgsFrom, him, hmsg,
        runAfterStage, han, hia, hAn]

/-- Claim C6 witness: on a concrete contract with a succeeding before
hook and a succeeding unknown hook, calling a missing function runs
before then unknown, never the main handler, and the unknown hook
success is terminal; on a concrete contract with an after hook, the
after hook runs after the successful unknown hook and the unknown
hook success is still terminal. -/
theorem c6_unknown_replaces_main_witness :
    Step.stepMain ∉
      (invokeResolved contractBeforeUnknownOk "Missing" missingCtx).2 ∧
    invokeResolved contractBeforeUnknownOk "Missing" missingCtx =
      (.success "", [.stepBefore, .stepUnknown]) ∧
    invokeResolved contractUnknownAfter "Missing" missingCtx =
      (.success "", [.stepUnknown, .stepAfter]) := by
  have h := c6_unknown_replaces_main contractBeforeUnknownOk "Missing"
    missingCtx unknownOkCallable rfl rfl
  have h2 := c6_unknown_replaces_main contractUnknownAfter "Missing"
    missingCtx unknownOkCallable rfl rfl
  refine ⟨h.1, ?_, ?_⟩
  · exact h.2.2.1 { missingCtx with callData := "before ran" } [.stepBefore]
      { missingCtx with callData := "before ran" } (.retErr none)
      rfl rfl rfl rfl rfl
  · exact (h2.2.2.2 missingCtx [] missingCtx (.retErr none) afterOkCallable
      missingCtx .retNone rfl rfl rfl rfl rfl rfl).2 rfl

/-- Claim C7 counterexample: the extended sample contract registers the
before hook getAsset, whose signature takes a string parameter in
addition to the transaction context, and registration-time validation
accepts it, although the claim rule (context-only parameters) rejects
that signature. -/
theorem c7_counterexample :
    validateContractDef extendedAssetDef = true ∧
    extendedAssetDef.beforeSig = some getAssetSig ∧
    beforeTakesOnlyContextRule getAssetSig = false := by
  refine ⟨by decide, rfl, by decide⟩

/-- Claim C7 (amended): a before hook follows the same signature rules
as contract functions: an optional leading transaction-context
parameter followed by any number of parameters of acceptable
convertible types is accepted at registration (with an error return),
while a signature whose parameter list starts with an unsupported
type is rejected. -/
theorem c7_before_hook_signature (ts : List ParamType)
    (h : ∀ t ∈ ts, validParamType t = true) :
    validBeforeTransaction
      { params := .ctxRef :: ts.map GoType.convertible,
        returns := [.goError] } = true ∧
    (∀ nm : String, ∀ rest2 : List GoType,
      validBeforeTransaction
        { params := .unsupported nm :: rest2, returns := [.goError] } = false) := by
  constructor
  · simp only [validBeforeTransaction, validContractFunction, validParams,
      validReturns, Bool.and_eq_true, List.all_eq_true]
    constructor
    · intro g hg
      obtain ⟨t, ht, rfl⟩ := List.mem_map.mp hg
      simpa [nonCtxParamOk] using h t ht
    · trivial
  · intro nm rest2
    simp [validBeforeTransaction, validContractFunction, validParams,
      nonCtxParamOk]

/-- Claim C7 witness: a before hook taking the context and one string
parameter is accepted at registration, and one taking an unsupported
struct type is rejected. -/
theorem c7_before_hook_signature_witness :
    validBeforeTransaction
      { params := [.ctxRef, .convertible .str], returns := [.goError] } = true ∧
    validBeforeTransaction
      { params := [.unsupported "myStruct"], returns := [.goError] } = false := by
  have h := c7_before_hook_signature [.str] (by decide)
  exact ⟨h.1, h.2 "myStruct" []⟩

/-- Claim C8 counterexample: boolean input conversion accepts the raw
string 1 (which is not case-insensitively true or false) and rejects
the raw string tRUe (which is case-insensitively true), so the
conversion domain is not the case-insensitive true/false literals the
claim states. -/
theorem c8_counterexample :
    convertArg .boolean "1" = some (.vBool true) ∧
    caseInsensitiveBoolRule "1" = none ∧
    convertArg .boolean "tRUe" = none ∧
    caseInsensitiveBoolRule "tRUe" = some true :=
  ⟨rfl, by decide, rfl, by decide⟩

/-- Claim C8 (amended): boolean input conversion succeeds on exactly
the twelve strconv.ParseBool literals: it yields true on
1, t, T, TRUE, true, True, yields false on 0, f, F, FALSE, false,
False, and fails on every other raw string. -/
theorem c8_bool_literals (s : String) :
    (convertArg .boolean s = some (.vBool true) ↔
      s ∈ ["1", "t", "T", "TRUE", "true", "True"]) ∧
    (convertArg .boolean s = some (.vBool false) ↔
      s ∈ ["0", "f", "F", "FALSE", "false", "False"]) ∧
    (convertArg .boolean s = none ↔
      (s ∉ ["1", "t", "T", "TRUE", "true", "True"] ∧
       s ∉ ["0", "f", "F", "FALSE", "false", "False"])) := by
  by_cases h1 : s ∈ ["1", "t", "T", "TRUE", "true", "True"]
  · have h2 : s ∉ ["0", "f", "F", "FALSE", "false", "False"] := by
      have h1b := h1
      simp only [List.mem_cons, List.not_mem_nil, or_false] at h1b
      rcases h1b with h | h | h | h | h | h <;> subst h <;> decide
    simp [convertArg, strconvParseBool, h1, h2]
  · by_cases h2 : s ∈ ["0", "f", "F", "FALSE", "false", "False"]
    · simp [convertArg, strconvParseBool, h1, h2]
    · simp [convertArg, strconvParseBool, h1, h2]

/-- Claim C9: for every nested array or slice value of the supported
scalar leaf types that conforms to its declared composite parameter
type, encoding it with the output converter and decoding that text
with the input converter for the matching declared type yields the
original structure unchanged, for every nesting depth the declared
type describes. -/
theorem c9_json_round_trip (ty : ParamType) (v : Value)
    (hcomp : isCompositeType ty = true)
    (hwt : wellTyped v ty = true) :
    convertArg ty (outputConvert v) = some v := by
  have h := parseJsonValue_renderValue ty v hwt [] rfl
  rw [List.append_nil] at h
  cases ty with
  | str => simp [isCompositeType] at hcomp
  | boolean => simp [isCompositeType] at hcomp
  | int w => simp [isCompositeType] at hcomp
  | uint w => simp [isCompositeType] at hcomp
  | float32 => simp [isCompositeType] at hcomp
  | float64 => simp [isCompositeType] at hcomp
  | array len elem =>
    cases v with
    | vStr s => simp [wellTyped] at hwt
    | vBool b => simp [wellTyped] at hwt
    | vInt i => simp [wellTyped] at hwt
    | vUint n => simp [wellTyped] at hwt
    | vFloat neg ip frac => simp [wellTyped] at hwt
    | vArr vs =>
      show decodeJsonArg (.array len elem)
        (String.mk (renderValue (.vArr vs))) = _
      simp [decodeJsonArg, h]
  | slice elem =>
    cases v with
    | vStr s => simp [wellTyped] at hwt
    | vBool b => simp [wellTyped] at hwt
    | vInt i => simp [wellTyped] at hwt
    | vUint n => simp [wellTyped] at hwt
    | vFloat neg ip frac => simp [wellTyped] at hwt
    | vArr vs =>
      show decodeJsonArg (.slice elem)
        (String.mk (renderValue (.vArr vs))) = _
      simp [decodeJsonArg, h]

/-- Claim C9 witness: the nested string list of the example, a string
list whose leaves need JSON escaping, and a float list all round trip
through the output converter and the input converter for their
declared types. -/
theorem c9_json_round_trip_witness :
    (isCompositeType coloursType = true ∧
      wellTyped coloursValue coloursType = true ∧
      convertArg coloursType (outputConvert coloursValue) =
        some coloursValue) ∧
    (wellTyped escapedValue escapedType = true ∧
      convertArg escapedType (outputConvert escapedValue) =
        some escapedValue) ∧
    (wellTyped floatsValue floatsType = true ∧
      convertArg floatsType (outputConvert floatsValue) =
        some floatsValue) :=
  ⟨⟨rfl, rfl, c9_json_round_trip coloursType coloursValue rfl rfl⟩,
    ⟨rfl, c9_json_round_trip escapedType escapedValue rfl rfl⟩,
    ⟨rfl, c9_json_round_trip floatsType floatsValue rfl rfl⟩⟩

/-- Claim C10: for the system contract, GetMetadata returns exactly the
string most recently stored by setMetadata (the empty string when
setMetadata was never called), and GetMetadata leaves the system
contract state unchanged. -/
theorem c10_metadata_get_set (ops : List SystemOp) :
    (SystemContract.GetMetadata (applySystemOps newSystemContract ops)).1 =
      (lastSetMetadata ops).getD "" ∧
    (∀ sc : SystemContract, (SystemContract.GetMetadata sc).2 = sc) := by
  constructor
  · have key : ∀ (l : List SystemOp) (sc : SystemContract),
        (applySystemOps sc l).metadata = (lastSetMetadata l).getD sc.metadata := by
      intro l
      induction l with
      | nil => intro sc; rfl
      | cons op rest ih =>
        intro sc
        cases op with
        | opSetMetadata s =>
          show (applySystemOps (sc.setMetadata s) rest).metadata = _
          rw [ih (sc.setMetadata s)]
          cases hrest : lastSetMetadata rest <;>
            simp [lastSetMetadata, hrest, SystemContract.setMetadata]
    exact key ops newSystemContract
  · intro sc
    rfl

end FabricContractAPI
